import Mathlib

/-!
Shallow embedding of `kitsune/customercare/cron.py`: the tweet filter
pipeline (`_filter_tweet`), the ingestion loop (`collect_tweets`), the
per-locale retention purge (`purge_tweets` / `_get_oldest_tweet`), and the
contributor stats aggregator (`get_customercare_stats`).

Texts are modelled as `List Char`; timestamps as `Int` (seconds, matching
`datetime` comparisons with `timedelta(days=k)` as `k * 86400` seconds);
machine integers do not overflow in the source (Python), so plain `Nat`/`Int`
are exact. Failures that raise in Python (a `KeyError` while resolving
avatar fields) are modelled with `Option`.
-/

namespace Kitsune

/-- Python `\w` over ASCII (the source uses Python 2 byte-string regexes,
so `\W` means not `[a-zA-Z0-9_]`). -/
def isWordChar (c : Char) : Bool := c.isAlphanum || c == '_'

/-- Python `str.lower()` on the ASCII texts involved. -/
def toLowerStr (s : List Char) : List Char := s.map Char.toLower

/-- Python substring test `needle in s` (used for `text.find` and `in`). -/
def containsSubstr (needle : List Char) : List Char → Bool
  | [] => needle.isEmpty
  | c :: rest => needle.isPrefixOf (c :: rest) || containsSubstr needle rest

/-- Fuelled worker for `replaceAllFuel`: Python `s.replace(needle, "")`,
deleting every non-overlapping occurrence of `needle`, scanning left to
right. Fuel bounded below by the length of the scanned list is enough,
since every step consumes at least one character. -/
def replaceAllFuel (needle : List Char) : Nat → List Char → List Char
  | 0, s => s
  | _ + 1, [] => []
  | fuel + 1, c :: rest =>
    if needle ≠ [] ∧ needle.isPrefixOf (c :: rest) then
      replaceAllFuel needle fuel ((c :: rest).drop needle.length)
    else
      c :: replaceAllFuel needle fuel rest

/-- Python `s.replace(needle, "")` for a nonempty `needle` (the source only
replaces the nonempty literals `@firefox` and `@firefoxbrasil`). -/
def replaceAll (needle s : List Char) : List Char := replaceAllFuel needle s.length s

/-- Helper for `MENTION_REGEX`: a `@` preceded by a non-word character,
anywhere in the list. -/
def mentionPairScan : List Char → Bool
  | a :: b :: rest => (!isWordChar a && b == '@') || mentionPairScan (b :: rest)
  | _ => false

/-- `MENTION_REGEX = re.compile('(^|\W)@')` applied with `.search`: a `@` at
the start of the string or preceded by a non-word character. -/
def mentionScan (s : List Char) : Bool :=
  (match s with | '@' :: _ => true | _ => false) || mentionPairScan s

/-- `RT_REGEX = re.compile('^rt\W', re.IGNORECASE)` applied with `.search` to
the already lowercased text: without `re.MULTILINE` the anchor `^` only
matches at position 0, so this is "starts with `rt` plus a non-word char". -/
def rtScan : List Char → Bool
  | 'r' :: 't' :: c :: _ => !isWordChar c
  | _ => false

/-- `LINK_REGEX = re.compile('https?:', re.IGNORECASE)` applied with
`.search` to the already lowercased text: the text contains `http:` or
`https:`. -/
def linkScan (s : List Char) : Bool :=
  containsSubstr ("http:".toList) s || containsSubstr ("https:".toList) s

/-- One entry of the static `ALLOWED_USERS` list. -/
structure AllowedUser where
  id : Nat
  username : List Char
deriving DecidableEq

/-- The static allow-list from the source. -/
def ALLOWED_USERS : List AllowedUser :=
  [⟨2142731, "Firefox".toList⟩, ⟨150793437, "FirefoxBrasil".toList⟩]

/-- One incoming search result (`item` in the source): the fields the
pipeline reads. `created_at_ts` stands for the already parsed UTC timestamp
of the `created_at` string (RFC 822 parsing is an external library). -/
structure TweetItem where
  id : Nat
  text : List Char
  to_user_id : Option Nat
  screen_name : List Char
  iso_language_code : Option (List Char)
  created_at_ts : Int
deriving DecidableEq

/-- Rejection reasons, named after the statsd counters
`customercare.tweet.rejected.<reason>` incremented by `_filter_tweet`. -/
inductive RejectReason where
  | reply_or_mention
  | retweet
  | link
  | user
deriving DecidableEq

/-- Result of `_filter_tweet`: the item itself (returned unmodified) or a
discard together with the reason counter that was incremented. -/
inductive FilterResult where
  | accept (item : TweetItem)
  | reject (reason : RejectReason)
deriving DecidableEq

/-- Condition of the reply filter: `to_user_id` is truthy (present and
nonzero) and not one of the allow-listed ids. -/
def replyRejected (item : TweetItem) : Bool :=
  match item.to_user_id with
  | some tid => tid != 0 && !((ALLOWED_USERS.map (fun u => u.id)).contains tid)
  | none => false

/-- The mention-stripping loop: for each allow-listed username (lowercased,
in list order) delete every literal `@username` occurrence from the text. -/
def stripAllowedMentions (text : List Char) : List Char :=
  (ALLOWED_USERS.map (fun u => toLowerStr u.username)).foldl
    (fun acc uname => replaceAll ('@' :: uname) acc) text

/-- Condition of the mention filter: `MENTION_REGEX.search(filtered_text)`
on the lowercased text with allow-listed handles stripped. -/
def mentionRejected (item : TweetItem) : Bool :=
  mentionScan (stripAllowedMentions (toLowerStr item.text))

/-- Condition of the retweet filter: `RT_REGEX.search(text)` or
`text.find('(via ') > -1` on the lowercased text. -/
def retweetMatched (item : TweetItem) : Bool :=
  rtScan (toLowerStr item.text) || containsSubstr ("(via ".toList) (toLowerStr item.text)

/-- Condition of the link filter: `not allow_links and
LINK_REGEX.search(text)` on the lowercased text. -/
def linkRejected (item : TweetItem) (allowLinks : Bool) : Bool :=
  !allowLinks && linkScan (toLowerStr item.text)

/-- Condition of the blocked-author filter:
`item['user']['screen_name'] in settings.CC_IGNORE_USERS` — the raw screen
name, not lowercased. -/
def userIgnored (ignoreUsers : List (List Char)) (item : TweetItem) : Bool :=
  ignoreUsers.contains item.screen_name

/-- `_filter_tweet(item, allow_links)`. The checks run in source order:
reply target, mention (on the text with allow-listed handles stripped),
retweet, link, then the ignore-list check on the raw (not lowercased)
author screen name. -/
def filterTweet (ignoreUsers : List (List Char)) (item : TweetItem)
    (allowLinks : Bool) : FilterResult :=
  if replyRejected item then .reject .reply_or_mention
  else if mentionRejected item then .reject .reply_or_mention
  else if retweetMatched item then .reject .retweet
  else if linkRejected item allowLinks then .reject .link
  else if userIgnored ignoreUsers item then .reject .user
  else .accept item

/-- One row of the `Tweet` table, with the fields read by `collect_tweets`
and `purge_tweets` (`tweet_id`, `locale`, `created`; the stored `raw_json`
blob is written but never read back by the embedded operations, so it is
omitted). -/
structure StoredTweet where
  tweet_id : Nat
  locale : List Char
  created : Int
deriving DecidableEq

/-- The `Tweet(...).save()` call inside its `try/except IntegrityError`:
the table has a unique key on `tweet_id`, so saving a duplicate id raises
`IntegrityError`, which the source catches with `pass` — the store is left
unchanged and the loop continues. -/
def saveTweet (store : List StoredTweet) (t : StoredTweet) : List StoredTweet :=
  if store.any (fun u => u.tweet_id == t.tweet_id) then store
  else store ++ [t]

/-- Construction of the `Tweet` row from an accepted item: locale from
`item['metadata'].get('iso_language_code', 'en')`, created from the parsed
`created_at`. -/
def mkTweet (item : TweetItem) : StoredTweet :=
  ⟨item.id, item.iso_language_code.getD ("en".toList), item.created_at_ts⟩

/-- The per-item loop of `collect_tweets`: filter each result (links are
allowed when the raw text contains `#fxinput`) and save the accepted ones. -/
def collectTweets (ignoreUsers : List (List Char)) (store : List StoredTweet)
    (items : List TweetItem) : List StoredTweet :=
  items.foldl (fun st item =>
    match filterTweet ignoreUsers item (containsSubstr ("#fxinput".toList) item.text) with
    | .accept it => saveTweet st (mkTweet it)
    | .reject _ => st) store

/-- Ordering used by `_get_oldest_tweet`: `order_by('-created')`, newest
first. -/
def tweetGE (a b : StoredTweet) : Prop := b.created ≤ a.created

instance : DecidableRel tweetGE := fun a b => inferInstanceAs (Decidable (b.created ≤ a.created))

instance : IsTotal StoredTweet tweetGE := ⟨fun a b => le_total b.created a.created⟩

instance : IsTrans StoredTweet tweetGE := ⟨fun _ _ _ h1 h2 => le_trans h2 h1⟩

/-- `Tweet.objects.filter(locale=locale)`. -/
def localeTweets (store : List StoredTweet) (lc : List Char) : List StoredTweet :=
  store.filter (fun t => t.locale == lc)

/-- `_get_oldest_tweet(locale, n)`: index `n` of the locale's tweets ordered
by descending creation time; the `IndexError` branch returns `None`. -/
def getOldestTweet (store : List StoredTweet) (lc : List Char) (n : Nat) : Option StoredTweet :=
  (List.insertionSort tweetGE (localeTweets store lc))[n]?

/-- The body of `purge_tweets` for one locale: when the cutoff tweet exists,
delete every tweet of the locale with `created <= cutoff.created`. -/
def purgeLocale (store : List StoredTweet) (lc : List Char) (ccMaxTweets : Nat) :
    List StoredTweet :=
  match getOldestTweet store lc ccMaxTweets with
  | none => store
  | some oldest =>
      store.filter (fun t => !(t.locale == lc && decide (t.created ≤ oldest.created)))

/-- The full `purge_tweets` loop: one `purgeLocale` per configured locale,
skipping locales with no mapped `iso639_1` code (`none`). -/
def purgeTweets (localeCodes : List (Option (List Char))) (store : List StoredTweet)
    (ccMaxTweets : Nat) : List StoredTweet :=
  localeCodes.foldl (fun st oc =>
    match oc with
    | none => st
    | some lc => purgeLocale st lc ccMaxTweets) store

/-- A user-profile shape carrying the two avatar fields; `none` models an
absent JSON key (reading it would raise `KeyError`). -/
structure UserData where
  profile_image_url : Option (List Char)
  profile_image_url_https : Option (List Char)
deriving DecidableEq

/-- The decoded `raw_json` of a `Reply` row, as read by the aggregator:
whether the legacy top-level `from_user` key is present, the top-level
profile fields, and the optional nested `user` object. -/
structure RawJson where
  has_from_user : Bool
  top : UserData
  user : Option UserData
deriving DecidableEq

/-- One row of the `Reply` table, with the fields read by
`get_customercare_stats`. -/
structure Reply where
  twitter_username : List Char
  raw_json : RawJson
  created : Int
deriving DecidableEq

/-- Resolution of the avatar URLs from a reply payload: use the payload
itself when `from_user` is present (v1 API shape), otherwise `raw['user']`;
`none` models the `KeyError` raised when a key is missing. -/
def lookupAvatars (raw : RawJson) : Option (List Char × List Char) :=
  match (if raw.has_from_user then some raw.top else raw.user) with
  | none => none
  | some ud =>
    match ud.profile_image_url, ud.profile_image_url_https with
    | some av, some avs => some (av, avs)
    | _, _ => none

/-- One contributor entry; `m1`, `w1`, `d1` are the source's `1m`, `1w`,
`1d` counters (digits cannot start a Lean field name). -/
structure ContributorStat where
  twitter_username : List Char
  avatar : List Char
  avatar_https : List Char
  all : Nat
  m1 : Nat
  w1 : Nat
  d1 : Nat
deriving DecidableEq

/-- `now - timedelta(days=30)` in seconds. -/
def oneMonthAgo (now : Int) : Int := now - 30 * 86400

/-- `now - timedelta(days=7)` in seconds. -/
def oneWeekAgo (now : Int) : Int := now - 7 * 86400

/-- `now - timedelta(days=1)` in seconds. -/
def yesterday (now : Int) : Int := now - 1 * 86400

/-- The counter updates for one reply, with the source's nested structure:
`all` always; `1m` when the reply is newer than the 30-day boundary; `1w`
checked only inside that branch; `1d` checked only inside the `1w` branch. -/
def bumpNested (now created : Int) (c : ContributorStat) : ContributorStat :=
  let cAll := { c with all := c.all + 1 }
  if oneMonthAgo now < created then
    let cM := { cAll with m1 := cAll.m1 + 1 }
    if oneWeekAgo now < created then
      let cW := { cM with w1 := cM.w1 + 1 }
      if yesterday now < created then { cW with d1 := cW.d1 + 1 } else cW
    else cM
  else cAll

/-- Modelled from the spec: the comparison implementation that tests each of
the three window boundaries independently for every record, used to state
the refinement claim about the nested increments. -/
def bumpIndep (now created : Int) (c : ContributorStat) : ContributorStat :=
  let c1 := { c with all := c.all + 1 }
  let c2 := if oneMonthAgo now < created then { c1 with m1 := c1.m1 + 1 } else c1
  let c3 := if oneWeekAgo now < created then { c2 with w1 := c2.w1 + 1 } else c2
  if yesterday now < created then { c3 with d1 := c3.d1 + 1 } else c3

/-- The body of the aggregation loop for one reply: first occurrence of a
username resolves the avatars (`none` models the `KeyError` aborting the
run) and initialises zeroed counters; then the counters for that username
are bumped. -/
def updateStats (now : Int) (stats : List ContributorStat) (r : Reply) :
    Option (List ContributorStat) :=
  if stats.any (fun c => c.twitter_username == r.twitter_username) then
    some (stats.map (fun c =>
      if c.twitter_username == r.twitter_username then bumpNested now r.created c else c))
  else
    match lookupAvatars r.raw_json with
    | none => none
    | some (av, avs) =>
      some (stats ++ [bumpNested now r.created ⟨r.twitter_username, av, avs, 0, 0, 0, 0⟩])

/-- The aggregation loop over `Reply.objects.all()`; a `none` from
`updateStats` aborts the whole run (no per-record isolation). -/
def aggregateStats (now : Int) (stats : List ContributorStat) :
    List Reply → Option (List ContributorStat)
  | [] => some stats
  | r :: rs =>
    match updateStats now stats r with
    | none => none
    | some stats2 => aggregateStats now stats2 rs

/-- Modelled from the spec: `updateStats` with the independent-boundary
counter updates, for the refinement comparison. -/
def updateStatsIndep (now : Int) (stats : List ContributorStat) (r : Reply) :
    Option (List ContributorStat) :=
  if stats.any (fun c => c.twitter_username == r.twitter_username) then
    some (stats.map (fun c =>
      if c.twitter_username == r.twitter_username then bumpIndep now r.created c else c))
  else
    match lookupAvatars r.raw_json with
    | none => none
    | some (av, avs) =>
      some (stats ++ [bumpIndep now r.created ⟨r.twitter_username, av, avs, 0, 0, 0, 0⟩])

/-- Modelled from the spec: the aggregation loop built on `updateStatsIndep`. -/
def aggregateStatsIndep (now : Int) (stats : List ContributorStat) :
    List Reply → Option (List ContributorStat)
  | [] => some stats
  | r :: rs =>
    match updateStatsIndep now stats r with
    | none => none
    | some stats2 => aggregateStatsIndep now stats2 rs

/-- The values `settings.CC_TOP_CONTRIB_SORT` may take: one of the four
counter keys. -/
inductive SortKey where
  | all
  | m1
  | w1
  | d1
deriving DecidableEq

/-- `c[sort_key]`. -/
def getCounter : SortKey → ContributorStat → Nat
  | .all, c => c.all
  | .m1, c => c.m1
  | .w1, c => c.w1
  | .d1, c => c.d1

/-- The sort relation of `sorted(..., key=lambda c: (c[sort_key], c.all),
reverse=True)`: `a` may precede `b` when the key tuple of `b` is
lexicographically at most that of `a` (descending primary counter, ties by
descending `all`). -/
def contribGE (k : SortKey) (a b : ContributorStat) : Prop :=
  getCounter k b < getCounter k a ∨ (getCounter k b = getCounter k a ∧ b.all ≤ a.all)

instance (k : SortKey) : DecidableRel (contribGE k) := fun a b => by
  unfold contribGE
  exact inferInstance

instance (k : SortKey) : IsTotal ContributorStat (contribGE k) := by
  refine ⟨fun a b => ?_⟩
  unfold contribGE
  omega

instance (k : SortKey) : IsTrans ContributorStat (contribGE k) := by
  refine ⟨fun a b c h1 h2 => ?_⟩
  unfold contribGE at *
  omega

/-- `get_customercare_stats` up to (and including) the sort and truncation:
aggregate all replies, sort descending by the configured key with `all` as
tie-break, and keep the first `limit` entries. `none` models the uncaught
`KeyError` aborting the run. -/
def getCustomercareStats (now : Int) (sortKey : SortKey) (limit : Nat)
    (replies : List Reply) : Option (List ContributorStat) :=
  match aggregateStats now [] replies with
  | none => none
  | some stats => some ((List.insertionSort (contribGE sortKey) stats).take limit)

/-- Modelled from the spec: the full pipeline with independent boundary
tests, for the refinement comparison. -/
def getCustomercareStatsIndep (now : Int) (sortKey : SortKey) (limit : Nat)
    (replies : List Reply) : Option (List ContributorStat) :=
  match aggregateStatsIndep now [] replies with
  | none => none
  | some stats => some ((List.insertionSort (contribGE sortKey) stats).take limit)

/-- Outcome of the `redis.set` call: success, or a `RedisError` with its
message. -/
inductive CacheResult where
  | ok
  | error (msg : List Char)
deriving DecidableEq

/-- Observable outcome of the tail of `get_customercare_stats`: the returned
list, the statsd counters incremented and the error log lines emitted while
publishing. -/
structure StatsRun where
  returned : List ContributorStat
  counters : List (List Char)
  logErrors : List (List Char)
deriving DecidableEq

/-- The `try: redis.set(...) except RedisError:` block: on failure increment
the `redis.error` counter and log the error; either way fall through to
`return contributor_stats`. -/
def publishStats (cache : CacheResult) (stats : List ContributorStat) : StatsRun :=
  match cache with
  | .ok => ⟨stats, [], []⟩
  | .error msg => ⟨stats, ["redis.error".toList], [msg]⟩

/-- The whole `get_customercare_stats` run including cache publication. -/
def getCustomercareStatsRun (now : Int) (sortKey : SortKey) (limit : Nat)
    (replies : List Reply) (cache : CacheResult) : Option StatsRun :=
  match getCustomercareStats now sortKey limit replies with
  | none => none
  | some stats => some (publishStats cache stats)

/-!
Claim theorems.
-/

/-- C1 (counterexample): the claim says a candidate with text
`RT @someone: check this out` and no reply target is rejected with reason
`retweet`; on the code the mention check runs before the retweet check, so
this candidate is rejected with reason `reply_or_mention` instead. -/
theorem retweet_claim_counterexample :
    filterTweet [] ⟨1, "RT @someone: check this out".toList, none, "alice".toList, none, 0⟩ false
      = FilterResult.reject RejectReason.reply_or_mention ∧
    filterTweet [] ⟨1, "RT @someone: check this out".toList, none, "alice".toList, none, 0⟩ false
      ≠ FilterResult.reject RejectReason.retweet := by
  decide

/-- C1 (amended): a candidate whose lowercased text matches `^rt\W` or
contains `(via ` is rejected with reason `retweet` regardless of link
content or author, provided it is not already rejected by the earlier
reply and mention checks (which take precedence in the pipeline). -/
theorem retweet_reject_after_earlier_filters (ig : List (List Char)) (item : TweetItem)
    (allowLinks : Bool)
    (hreply : replyRejected item = false)
    (hmention : mentionRejected item = false)
    (hrt : retweetMatched item = true) :
    filterTweet ig item allowLinks = FilterResult.reject RejectReason.retweet := by
  unfold filterTweet
  simp [hreply, hmention, hrt]

/-- C1 (witness): the amended theorem applied to a concrete retweet. -/
theorem retweet_reject_after_earlier_filters_witness :
    filterTweet [] ⟨1, "RT: good stuff".toList, none, "alice".toList, none, 0⟩ false
      = FilterResult.reject RejectReason.retweet :=
  retweet_reject_after_earlier_filters [] _ false (by decide) (by decide) (by decide)

/-- C2 (counterexample): the claim says a mention of any non-allow-listed
account is rejected, including `@firefoxrocks`; on the code the literal
strip of `@firefox` deletes the `@` of `@firefoxrocks`, so the candidate is
accepted (the source comments on exactly this edge case). -/
theorem mention_prefix_claim_counterexample :
    filterTweet [] ⟨1, "@firefoxrocks is great".toList, none, "alice".toList, none, 0⟩ false
      = FilterResult.accept ⟨1, "@firefoxrocks is great".toList, none, "alice".toList, none, 0⟩ ∧
    filterTweet [] ⟨1, "@firefoxrocks is great".toList, none, "alice".toList, none, 0⟩ false
      ≠ FilterResult.reject RejectReason.reply_or_mention := by
  decide

/-- C2 (amended): a candidate that passes the reply check and whose text
still contains an `@`-mention pattern after every literal allow-listed
`@handle` occurrence has been stripped is rejected with reason
`reply_or_mention`; mentions whose `@` disappears with the strip — such as
handles that merely begin with an allow-listed handle, e.g.
`@firefoxrocks` — pass the mention check instead. -/
theorem mention_reject_of_surviving_mention (ig : List (List Char)) (item : TweetItem)
    (allowLinks : Bool)
    (hreply : replyRejected item = false)
    (hmention : mentionRejected item = true) :
    filterTweet ig item allowLinks = FilterResult.reject RejectReason.reply_or_mention := by
  unfold filterTweet
  simp [hreply, hmention]

/-- C2 (witness): the amended theorem applied to a concrete mention. -/
theorem mention_reject_of_surviving_mention_witness :
    filterTweet [] ⟨1, "hello @bob nice".toList, none, "alice".toList, none, 0⟩ false
      = FilterResult.reject RejectReason.reply_or_mention :=
  mention_reject_of_surviving_mention [] _ false (by decide) (by decide)

/-- C9 (counterexample): the claim says the blocked-author check is
case-insensitive; on the code only the text is lowercased, the author
screen name is matched against the ignore list exactly, so `BadUser` with
ignore entry `baduser` is accepted. -/
theorem ignore_list_case_counterexample :
    filterTweet ["baduser".toList]
        ⟨1, "firefox is nice".toList, none, "BadUser".toList, none, 0⟩ false
      = FilterResult.accept ⟨1, "firefox is nice".toList, none, "BadUser".toList, none, 0⟩ ∧
    filterTweet ["baduser".toList]
        ⟨1, "firefox is nice".toList, none, "BadUser".toList, none, 0⟩ false
      ≠ FilterResult.reject RejectReason.user := by
  decide

/-- C9 (amended): the text-based checks of the pipeline operate on the
lowercased text, but the blocked-author check compares the raw author
screen name against the ignore list case-sensitively: a candidate passing
all earlier checks is rejected with reason `user` exactly when its screen
name is literally in the list, so a handle differing from an ignore entry
only in letter case is accepted. -/
theorem ignored_user_check_case_sensitive (ig : List (List Char)) (item : TweetItem)
    (allowLinks : Bool)
    (hreply : replyRejected item = false)
    (hmention : mentionRejected item = false)
    (hrt : retweetMatched item = false)
    (hlink : linkRejected item allowLinks = false) :
    filterTweet ig item allowLinks
      = if userIgnored ig item then FilterResult.reject RejectReason.user
        else FilterResult.accept item := by
  unfold filterTweet
  simp [hreply, hmention, hrt, hlink]

/-- C9 (witness): the amended theorem applied to a concrete exact-case
match, which is rejected with reason `user`. -/
theorem ignored_user_check_case_sensitive_witness :
    filterTweet ["baduser".toList]
        ⟨1, "firefox is nice".toList, none, "baduser".toList, none, 0⟩ false
      = FilterResult.reject RejectReason.user := by
  have h := ignored_user_check_case_sensitive ["baduser".toList]
    ⟨1, "firefox is nice".toList, none, "baduser".toList, none, 0⟩ false
    (by decide) (by decide) (by decide) (by decide)
  simpa using h

/-- Helper: `saveTweet` preserves uniqueness of stored tweet ids. -/
theorem saveTweet_pairwise_ne (store : List StoredTweet) (t : StoredTweet)
    (h : store.Pairwise (fun a b => a.tweet_id ≠ b.tweet_id)) :
    (saveTweet store t).Pairwise (fun a b => a.tweet_id ≠ b.tweet_id) := by
  unfold saveTweet
  split
  · exact h
  · rename_i hany
    rw [List.pairwise_append]
    refine ⟨h, List.pairwise_singleton _ _, ?_⟩
    intro a ha b hb
    rw [List.mem_singleton] at hb
    subst hb
    rw [List.any_eq_true] at hany
    push_neg at hany
    intro he
    exact absurd (by simpa using he : (a.tweet_id == b.tweet_id) = true) (hany a ha)

/-- C7: a duplicate-id insert is caught and the store is left unchanged
(first conjunct, the `except IntegrityError: pass` branch); a save always
leaves the id present (second conjunct); and the full ingestion loop
preserves uniqueness of stored ids (third conjunct) — so inserting the
same candidate id twice leaves exactly one stored post with that id, and
the run continues past the duplicate. -/
theorem duplicate_insert_dedup :
    (∀ (store : List StoredTweet) (t : StoredTweet),
        store.any (fun u => u.tweet_id == t.tweet_id) = true → saveTweet store t = store) ∧
    (∀ (store : List StoredTweet) (t : StoredTweet),
        (saveTweet store t).any (fun u => u.tweet_id == t.tweet_id) = true) ∧
    (∀ (ig : List (List Char)) (store : List StoredTweet) (items : List TweetItem),
        store.Pairwise (fun a b => a.tweet_id ≠ b.tweet_id) →
        (collectTweets ig store items).Pairwise (fun a b => a.tweet_id ≠ b.tweet_id)) := by
  refine ⟨?_, ?_, ?_⟩
  · intro store t h
    unfold saveTweet
    simp [h]
  · intro store t
    unfold saveTweet
    split
    · assumption
    · simp
  · intro ig store items
    induction items generalizing store with
    | nil => intro h; simpa [collectTweets] using h
    | cons item rest ih =>
      intro h
      simp only [collectTweets, List.foldl_cons] at *
      rcases hf : filterTweet ig item (containsSubstr ("#fxinput".toList) item.text) with it | r
      · simp only [hf]
        exact ih _ (saveTweet_pairwise_ne _ _ h)
      · simp only [hf]
        exact ih _ h

/-- C7 (witness): saving a tweet with an already stored id leaves the
store unchanged. -/
theorem duplicate_insert_dedup_witness :
    saveTweet [⟨1, "en".toList, 0⟩] ⟨1, "en".toList, 5⟩ = [⟨1, "en".toList, 0⟩] :=
  duplicate_insert_dedup.1 [⟨1, "en".toList, 0⟩] ⟨1, "en".toList, 5⟩ (by decide)

/-- Helper: the nested window increments equal the independent ones,
because the three boundaries are ordered (30 days ago ≤ 7 days ago ≤ 1 day
ago). -/
theorem bumpNested_eq_bumpIndep (now created : Int) (c : ContributorStat) :
    bumpNested now created c = bumpIndep now created c := by
  simp only [bumpNested, bumpIndep, oneMonthAgo, oneWeekAgo, yesterday]
  split_ifs <;> first | rfl | omega

/-- C4: the aggregator with the source's nested window-increment logic
returns exactly the same result (hence the same four counter values for
every contributor) as the spec-modelled variant that tests each of the
three boundaries independently for every record, for every reply set and
every fixed current time. -/
theorem stats_nested_eq_independent (now : Int) (sortKey : SortKey) (limit : Nat)
    (replies : List Reply) :
    getCustomercareStats now sortKey limit replies
      = getCustomercareStatsIndep now sortKey limit replies := by
  have hagg : ∀ (stats : List ContributorStat) (rs : List Reply),
      aggregateStats now stats rs = aggregateStatsIndep now stats rs := by
    intro stats rs
    induction rs generalizing stats with
    | nil => rfl
    | cons r rest ih =>
      have hupd : updateStats now stats r = updateStatsIndep now stats r := by
        unfold updateStats updateStatsIndep
        simp only [bumpNested_eq_bumpIndep]
      simp only [aggregateStats, aggregateStatsIndep, hupd]
      cases updateStatsIndep now stats r with
      | none => rfl
      | some stats2 => exact ih stats2
  unfold getCustomercareStats getCustomercareStatsIndep
  rw [hagg]

/-- The nesting invariant of the four counters. -/
def statInv (c : ContributorStat) : Prop :=
  c.d1 ≤ c.w1 ∧ c.w1 ≤ c.m1 ∧ c.m1 ≤ c.all

/-- Helper: one nested bump preserves the counter nesting invariant. -/
theorem statInv_bumpNested (now created : Int) (c : ContributorStat) (h : statInv c) :
    statInv (bumpNested now created c) := by
  unfold statInv bumpNested at *
  split_ifs <;> simp <;> omega

/-- Helper: one aggregation step preserves the counter nesting invariant. -/
theorem statInv_updateStats (now : Int) (stats stats2 : List ContributorStat) (r : Reply)
    (hs : ∀ c ∈ stats, statInv c) (h : updateStats now stats r = some stats2) :
    ∀ c ∈ stats2, statInv c := by
  unfold updateStats at h
  split at h
  · injection h with h
    subst h
    intro c hc
    rw [List.mem_map] at hc
    obtain ⟨c0, hc0, rfl⟩ := hc
    split
    · exact statInv_bumpNested _ _ _ (hs c0 hc0)
    · exact hs c0 hc0
  · split at h
    · exact absurd h (by simp)
    · rename_i av avs heq
      injection h with h
      subst h
      intro c hc
      rw [List.mem_append] at hc
      rcases hc with hc | hc
      · exact hs c hc
      · rw [List.mem_singleton] at hc
        subst hc
        exact statInv_bumpNested _ _ _ (by simp [statInv])

/-- Helper: the aggregation loop preserves the counter nesting invariant. -/
theorem statInv_aggregateStats (now : Int) (replies : List Reply)
    (stats out : List ContributorStat)
    (hs : ∀ c ∈ stats, statInv c) (h : aggregateStats now stats replies = some out) :
    ∀ c ∈ out, statInv c := by
  induction replies generalizing stats with
  | nil =>
    simp only [aggregateStats] at h
    injection h with h
    subst h
    exact hs
  | cons r rest ih =>
    simp only [aggregateStats] at h
    split at h
    · exact absurd h (by simp)
    · rename_i stats2 heq
      exact ih stats2 (statInv_updateStats now stats stats2 r hs heq) h

/-- C5: every contributor entry of the aggregation result satisfies
`1d ≤ 1w ≤ 1m ≤ all`. -/
theorem stats_counters_nested_bound (now : Int) (k : SortKey) (lim : Nat)
    (replies : List Reply) (out : List ContributorStat)
    (h : getCustomercareStats now k lim replies = some out) :
    ∀ c ∈ out, c.d1 ≤ c.w1 ∧ c.w1 ≤ c.m1 ∧ c.m1 ≤ c.all := by
  unfold getCustomercareStats at h
  split at h
  · exact absurd h (by simp)
  · rename_i stats heq
    injection h with h
    subst h
    intro c hc
    have hc2 : c ∈ List.insertionSort (contribGE k) stats := List.mem_of_mem_take hc
    have hc3 : c ∈ stats := (List.perm_insertionSort (contribGE k) stats).mem_iff.mp hc2
    exact statInv_aggregateStats now replies [] stats (by simp) heq c hc3

/-- C5 (witness): the invariant at the single contributor produced by a
concrete one-reply aggregation. -/
theorem stats_counters_nested_bound_witness :
    (⟨"alice".toList, "a".toList, "as".toList, 1, 1, 1, 1⟩ : ContributorStat).d1
        ≤ (⟨"alice".toList, "a".toList, "as".toList, 1, 1, 1, 1⟩ : ContributorStat).w1 ∧
    (⟨"alice".toList, "a".toList, "as".toList, 1, 1, 1, 1⟩ : ContributorStat).w1
        ≤ (⟨"alice".toList, "a".toList, "as".toList, 1, 1, 1, 1⟩ : ContributorStat).m1 ∧
    (⟨"alice".toList, "a".toList, "as".toList, 1, 1, 1, 1⟩ : ContributorStat).m1
        ≤ (⟨"alice".toList, "a".toList, "as".toList, 1, 1, 1, 1⟩ : ContributorStat).all :=
  stats_counters_nested_bound 0 SortKey.all 10
    [⟨"alice".toList, ⟨true, ⟨some ("a".toList), some ("as".toList)⟩, none⟩, 0⟩]
    [⟨"alice".toList, "a".toList, "as".toList, 1, 1, 1, 1⟩] (by decide) _ (by decide)

/-- C6: the list returned by the aggregator is sorted descending by the
configured primary counter with ties broken by descending `all`, and its
length is at most the configured limit. -/
theorem stats_sorted_truncated (now : Int) (k : SortKey) (lim : Nat)
    (replies : List Reply) (out : List ContributorStat)
    (h : getCustomercareStats now k lim replies = some out) :
    out.Pairwise (fun a b =>
      getCounter k b < getCounter k a ∨
        (getCounter k b = getCounter k a ∧ b.all ≤ a.all)) ∧
    out.length ≤ lim := by
  unfold getCustomercareStats at h
  split at h
  · exact absurd h (by simp)
  · rename_i stats heq
    injection h with h
    subst h
    constructor
    · have hsorted : List.Sorted (contribGE k) (List.insertionSort (contribGE k) stats) :=
        List.sorted_insertionSort (contribGE k) stats
      exact hsorted.sublist (List.take_sublist lim _)
    · exact List.length_take_le lim _

/-- C6 (witness): sortedness and truncation at a concrete two-contributor
aggregation with limit 1. -/
theorem stats_sorted_truncated_witness :
    ([(⟨"alice".toList, "a".toList, "as".toList, 2, 2, 2, 2⟩ : ContributorStat)].Pairwise
      (fun a b =>
        getCounter SortKey.all b < getCounter SortKey.all a ∨
          (getCounter SortKey.all b = getCounter SortKey.all a ∧ b.all ≤ a.all)) ∧
    [(⟨"alice".toList, "a".toList, "as".toList, 2, 2, 2, 2⟩ : ContributorStat)].length ≤ 1) :=
  stats_sorted_truncated 0 SortKey.all 1
    [⟨"alice".toList, ⟨true, ⟨some ("a".toList), some ("as".toList)⟩, none⟩, 0⟩,
     ⟨"alice".toList, ⟨true, ⟨some ("a".toList), some ("as".toList)⟩, none⟩, 0⟩,
     ⟨"bob".toList, ⟨true, ⟨some ("b".toList), some ("bs".toList)⟩, none⟩, 0⟩] _ (by decide)

/-- C8: when the cache write fails with a cache-backend error, the run
still returns exactly what it returns when the write succeeds, and the
failure is recorded with the `redis.error` counter and an error log line. -/
theorem cache_failure_nonfatal (now : Int) (k : SortKey) (lim : Nat)
    (replies : List Reply) (msg : List Char) :
    Option.map StatsRun.returned (getCustomercareStatsRun now k lim replies (CacheResult.error msg))
      = Option.map StatsRun.returned (getCustomercareStatsRun now k lim replies CacheResult.ok) ∧
    ∀ o, getCustomercareStatsRun now k lim replies (CacheResult.error msg) = some o →
      "redis.error".toList ∈ o.counters ∧ msg ∈ o.logErrors := by
  unfold getCustomercareStatsRun publishStats
  cases getCustomercareStats now k lim replies with
  | none => simp
  | some stats =>
    refine ⟨rfl, ?_⟩
    intro o ho
    injection ho with ho
    subst ho
    simp

/-- C8 (witness): a concrete run with a failing cache write returns the
computed ranking and records the failure. -/
theorem cache_failure_nonfatal_witness :
    "redis.error".toList ∈
      (⟨[⟨"alice".toList, "a".toList, "as".toList, 1, 1, 1, 1⟩],
        ["redis.error".toList], ["boom".toList]⟩ : StatsRun).counters ∧
    "boom".toList ∈
      (⟨[⟨"alice".toList, "a".toList, "as".toList, 1, 1, 1, 1⟩],
        ["redis.error".toList], ["boom".toList]⟩ : StatsRun).logErrors :=
  (cache_failure_nonfatal 0 SortKey.all 10
    [⟨"alice".toList, ⟨true, ⟨some ("a".toList), some ("as".toList)⟩, none⟩, 0⟩]
    ("boom".toList)).2 _ (by decide)

/-- C10: a reply whose payload has no top-level `from_user` key and no
nested `user` object carrying both profile-image fields, for a username
not seen earlier, makes the whole run fail before returning or writing to
the cache — one such record aborts the run even when other records are
fine (no per-record isolation). The first run has a payload with no `user`
object at all; the second has a nested `user` object missing the https
field. -/
theorem stats_missing_profile_aborts :
    getCustomercareStatsRun 0 SortKey.all 10
      [⟨"alice".toList, ⟨true, ⟨some ("a".toList), some ("as".toList)⟩, none⟩, 0⟩,
       ⟨"bob".toList, ⟨false, ⟨some ("b".toList), some ("bs".toList)⟩, none⟩, 0⟩,
       ⟨"carol".toList, ⟨true, ⟨some ("c".toList), some ("cs".toList)⟩, none⟩, 0⟩]
      CacheResult.ok = none ∧
    getCustomercareStatsRun 0 SortKey.all 10
      [⟨"alice".toList, ⟨true, ⟨some ("a".toList), some ("as".toList)⟩, none⟩, 0⟩,
       ⟨"bob".toList, ⟨false, ⟨none, none⟩, some ⟨some ("b".toList), none⟩⟩, 0⟩]
      CacheResult.ok = none := by
  decide

/-- Helper: in a list strictly descending by creation time, the number of
entries strictly newer than the entry at index `n` is exactly `n`. -/
theorem countP_newer_of_strict_sorted (l : List StoredTweet)
    (hsort : l.Pairwise (fun a b => b.created < a.created)) :
    ∀ (n : Nat) (x : StoredTweet), l[n]? = some x →
      l.countP (fun t => decide (x.created < t.created)) = n := by
  induction l with
  | nil => intro n x hx; simp at hx
  | cons a l ih =>
    rw [List.pairwise_cons] at hsort
    obtain ⟨ha, hl⟩ := hsort
    intro n x hx
    cases n with
    | zero =>
      rw [List.getElem?_cons_zero] at hx
      injection hx with hx
      subst hx
      rw [List.countP_cons]
      have h0 : l.countP (fun t => decide (a.created < t.created)) = 0 := by
        rw [List.countP_eq_zero]
        intro t ht
        simp only [decide_eq_true_eq]
        have := ha t ht
        omega
      rw [h0]
      simp
    | succ n =>
      rw [List.getElem?_cons_succ] at hx
      have hxl : x ∈ l := by
        obtain ⟨hlt, rfl⟩ := List.getElem?_eq_some.mp hx
        exact List.getElem_mem hlt
      rw [List.countP_cons, ih hl n x hx]
      have : decide (x.created < a.created) = true := by
        simp only [decide_eq_true_eq]
        exact ha x hxl
      simp [this]

/-- C3: for a locale whose stored posts have pairwise distinct creation
times, one purge pass deletes nothing when at most `N` posts of the locale
are stored, and otherwise leaves exactly `N` posts of the locale — the `N`
newest, in the sense that every remaining post of the locale is strictly
newer than every deleted one. -/
theorem purge_retention (store : List StoredTweet) (lc : List Char) (N : Nat)
    (hdist : (localeTweets store lc).Pairwise (fun a b => a.created ≠ b.created)) :
    ((localeTweets store lc).length ≤ N → purgeLocale store lc N = store) ∧
    (N < (localeTweets store lc).length →
      (localeTweets (purgeLocale store lc N) lc).length = N ∧
      ∀ a ∈ localeTweets (purgeLocale store lc N) lc,
        ∀ b ∈ localeTweets store lc,
          b ∉ localeTweets (purgeLocale store lc N) lc → b.created < a.created) := by
  have hperm := List.perm_insertionSort tweetGE (localeTweets store lc)
  have hlen := hperm.length_eq
  constructor
  · intro hle
    have hnone : (List.insertionSort tweetGE (localeTweets store lc))[N]? = none :=
      List.getElem?_eq_none (by omega)
    unfold purgeLocale getOldestTweet
    rw [hnone]
  · intro hlt
    have hltS : N < (List.insertionSort tweetGE (localeTweets store lc)).length := by omega
    obtain ⟨x, hx⟩ : ∃ x, (List.insertionSort tweetGE (localeTweets store lc))[N]? = some x := by
      rw [List.getElem?_eq_getElem hltS]
      exact ⟨_, rfl⟩
    have hstrict : (List.insertionSort tweetGE (localeTweets store lc)).Pairwise
        (fun a b => b.created < a.created) := by
      have hsorted : List.Sorted tweetGE (List.insertionSort tweetGE (localeTweets store lc)) :=
        List.sorted_insertionSort tweetGE (localeTweets store lc)
      have hdistS : (List.insertionSort tweetGE (localeTweets store lc)).Pairwise
          (fun a b => a.created ≠ b.created) :=
        (hperm.pairwise_iff (fun h => h.symm)).mpr hdist
      exact (hsorted.and hdistS).imp
        (fun h => lt_of_le_of_ne h.1 (fun e => h.2 e.symm))
    have hcount : (List.insertionSort tweetGE (localeTweets store lc)).countP
        (fun t => decide (x.created < t.created)) = N :=
      countP_newer_of_strict_sorted _ hstrict N x hx
    have hpurged : purgeLocale store lc N
        = store.filter (fun t => !(t.locale == lc && decide (t.created ≤ x.created))) := by
      unfold purgeLocale getOldestTweet
      rw [hx]
    have hloc : localeTweets (purgeLocale store lc N) lc
        = (localeTweets store lc).filter (fun t => decide (x.created < t.created)) := by
      rw [hpurged]
      unfold localeTweets
      rw [List.filter_filter, List.filter_filter]
      apply List.filter_congr
      intro t _
      by_cases h1 : (t.locale == lc) = true <;> by_cases h2 : t.created ≤ x.created <;>
        simp [h1, h2] <;> omega
    constructor
    · rw [hloc, ← List.countP_eq_length_filter, ← hperm.countP_eq, hcount]
    · intro a ha b hb hbn
      rw [hloc, List.mem_filter, decide_eq_true_eq] at ha
      have hbx : ¬ x.created < b.created := by
        intro hxb
        exact hbn (by rw [hloc, List.mem_filter, decide_eq_true_eq]; exact ⟨hb, hxb⟩)
      omega

/-- C3 (witness): a concrete store with four distinct-time posts of the
locale and limit 2 retains exactly two. -/
theorem purge_retention_witness :
    2 < (localeTweets
      [⟨1, "en".toList, 10⟩, ⟨2, "en".toList, 40⟩, ⟨3, "de".toList, 5⟩,
       ⟨4, "en".toList, 20⟩, ⟨5, "en".toList, 30⟩] ("en".toList)).length ∧
    (localeTweets (purgeLocale
      [⟨1, "en".toList, 10⟩, ⟨2, "en".toList, 40⟩, ⟨3, "de".toList, 5⟩,
       ⟨4, "en".toList, 20⟩, ⟨5, "en".toList, 30⟩] ("en".toList) 2) ("en".toList)).length = 2 :=
  ⟨by decide, ((purge_retention _ _ 2 (by decide)).2 (by decide)).1⟩

end Kitsune
